import Mathlib

/-!
Formal model of the terminal meditation timer (src/main.py) and proofs about
its timing, cue-emission, rendering, and logging behaviour.

Conventions of the embedding:
* Python floats are modelled as rationals (ℚ); Python int() truncation toward
  zero is `pyInt`, float floor-division is `pyFloorDiv`, float modulo is
  `pyMod`.
* Side effects (bell, printed cue lines, rendered progress frames, clearing
  the progress line, appended log rows, blocking input) are reified as an
  `Effect` trace.  Terminal clearing (the clear() helper) is pure display
  housekeeping and is not traced.
* Wall-clock time is idealised deterministically: time.sleep(d) advances the
  clock by exactly d, all other operations take no time, and time.time() is
  exact.  Loops that wait on the clock are given a fuel parameter; a result
  of none means the fuel was insufficient, never a different behaviour.
-/

/-- Python int() applied to a float: truncation toward zero. -/
def pyInt (q : ℚ) : ℤ := if q < 0 then ⌈q⌉ else ⌊q⌋

/-- Python float floor-division x // y (result is a float with integral value). -/
def pyFloorDiv (x y : ℚ) : ℚ := ((⌊x / y⌋ : ℤ) : ℚ)

/-- Python float modulo x % y, i.e. x - y * (x // y). -/
def pyMod (x y : ℚ) : ℚ := x - y * ((⌊x / y⌋ : ℤ) : ℚ)

/-- Python string repetition s * n with a possibly negative int count. -/
def pyRepeat (c : Char) (n : ℤ) : List Char := List.replicate n.toNat c

/-- The fixed bar width, `bar_len = 30` in progress_bar (src/main.py line 72). -/
def bar_len : ℕ := 30

/-- `filled = int(percent * bar_len)` with `percent = elapsed / total_seconds`
(src/main.py lines 71-73). -/
def filled (elapsed total_seconds : ℚ) : ℤ :=
  pyInt (elapsed / total_seconds * (bar_len : ℚ))

/-- The bar string `"[" + "#" * filled + "-" * (bar_len - filled) + "]"`
(src/main.py line 74), as a list of characters. -/
def bar (elapsed total_seconds : ℚ) : List Char :=
  '[' :: (pyRepeat '#' (filled elapsed total_seconds)
    ++ pyRepeat '-' ((bar_len : ℤ) - filled elapsed total_seconds) ++ [']'])

/-- `mins_left = int((total_seconds - elapsed) // 60)` (src/main.py line 75). -/
def mins_left (elapsed total_seconds : ℚ) : ℤ :=
  pyInt (pyFloorDiv (total_seconds - elapsed) 60)

/-- `secs_left = int((total_seconds - elapsed) % 60)` (src/main.py line 76). -/
def secs_left (elapsed total_seconds : ℚ) : ℤ :=
  pyInt (pyMod (total_seconds - elapsed) 60)

/-- Observable side effects of a run.  `frame` is one rendered progress line
(bar characters, minutes left, seconds left); `clearLine` is the final
line-clearing write of progress_bar; `phaseTick` is one box-breathing
countdown write such as `Inhale  :  4`; `logRow` is one row appended by
log_session (kind, duration_min, notes); `awaitInput` is a blocking input(). -/
inductive Effect where
  | bell : Effect
  | cueLine : String → Effect
  | frame : List Char → ℤ → ℤ → Effect
  | clearLine : Effect
  | phaseTick : String → ℤ → Effect
  | message : String → Effect
  | logRow : String → ℚ → String → Effect
  | awaitInput : Effect
deriving DecidableEq

/-- The duration recorded by a logRow effect, if any. -/
def logOf : Effect → Option ℚ
  | Effect.logRow _ d _ => some d
  | _ => none

/-- The durations of all log rows appended in a trace, in order. -/
def loggedDurations (t : List Effect) : List ℚ := t.filterMap logOf

/-- The texts of all cue lines printed in a trace, in order. -/
def cueTexts (t : List Effect) : List String :=
  t.filterMap fun e => match e with
    | Effect.cueLine s => some s
    | _ => none

/-- Whether an effect is a box-breathing countdown write (one per 1 s sleep). -/
def isPhaseTick : Effect → Bool
  | Effect.phaseTick _ _ => true
  | _ => false

/-! ### progress_bar over clock samples (src/main.py lines 65-80)

`progressBarFrames total samples` gives the bar lines written when the
successive readings of `time.time() - start` at the top of the loop are
`samples`; the loop breaks (rendering nothing more) at the first reading
that is ≥ total.  `progressBarIters` counts loop iterations entered. -/

def progressBarFrames (total_seconds : ℚ) : List ℚ → List (List Char)
  | [] => []
  | e :: rest =>
    if total_seconds ≤ e then []
    else bar e total_seconds :: progressBarFrames total_seconds rest

def progressBarIters (total_seconds : ℚ) : List ℚ → ℕ
  | [] => 0
  | e :: rest =>
    if total_seconds ≤ e then 1
    else progressBarIters total_seconds rest + 1

/-! ### progress_bar under the deterministic clock

Each loop iteration reads elapsed, breaks if elapsed ≥ total, otherwise
renders one frame and sleeps 0.5 s.  On break it clears the line (line 80).
Returns the written effects and the total wall time consumed. -/

def progressBarTimed : ℕ → ℚ → ℚ → Option (List Effect × ℚ)
  | 0, _, _ => none
  | fuel + 1, total_seconds, elapsed =>
    if total_seconds ≤ elapsed then some ([Effect.clearLine], elapsed)
    else
      match progressBarTimed fuel total_seconds (elapsed + 1/2) with
      | none => none
      | some (fr, consumed) =>
        some (Effect.frame (bar elapsed total_seconds)
                (mins_left elapsed total_seconds)
                (secs_left elapsed total_seconds) :: fr, consumed)

/-! ### The cue-advance operation (src/main.py lines 131-134)

`while i < len(script) and elapsed >= script[i][0]: print cue; i += 1`.
`next_due script i elapsed` walks the script from index i (the suffix
`script.drop i`) and returns the texts printed and the advanced cursor. -/

def next_due_go (elapsed : ℚ) : List (ℚ × String) → ℕ → List String × ℕ
  | [], i => ([], i)
  | c :: rest, i =>
    if c.1 ≤ elapsed then
      let r := next_due_go elapsed rest (i + 1)
      (c.2 :: r.1, r.2)
    else ([], i)

def next_due (script : List (ℚ × String)) (i : ℕ) (elapsed : ℚ) : List String × ℕ :=
  next_due_go elapsed (script.drop i) i

/-- Repeatedly querying the cue-advance at the successive elapsed values of a
session run: the cue-emission portion of the guided_session loop
(src/main.py lines 126-134) abstracted over the observed elapsed readings.
Returns all texts printed (in order) and the final cursor. -/
def runCues (script : List (ℚ × String)) : ℕ → List ℚ → List String × ℕ
  | i, [] => ([], i)
  | i, e :: es =>
    let r := next_due script i e
    let r2 := runCues script r.2 es
    (r.1 ++ r2.1, r2.2)

/-! ### guided_session under the deterministic clock (src/main.py lines 120-141)

Each outer iteration reads elapsed, breaks if elapsed ≥ total, prints the
newly due cues, then calls progress_bar(max(0, total - elapsed)) — which
itself loops, 0.5 s per render, until that whole remaining span has elapsed,
consuming the corresponding wall time. -/

def guidedLoopTimed : ℕ → List (ℚ × String) → ℚ → ℕ → ℚ → Option (List Effect × ℚ)
  | 0, _, _, _, _ => none
  | fuel + 1, script, total_seconds, i, elapsed =>
    if total_seconds ≤ elapsed then some ([], elapsed)
    else
      let nd := next_due script i elapsed
      let remaining := max 0 (total_seconds - elapsed)
      match progressBarTimed fuel remaining 0 with
      | none => none
      | some (fr, consumed) =>
        match guidedLoopTimed fuel script total_seconds nd.2 (elapsed + consumed) with
        | none => none
        | some (effs, tEnd) =>
          some (nd.1.map Effect.cueLine ++ fr ++ effs, tEnd)

/-- Effects of guided_session up to the end of its loop: the start bell
(line 124) followed by the loop effects. -/
def guidedPre (fuel : ℕ) (script : List (ℚ × String)) (duration_min : ℚ) :
    Option (List Effect) :=
  (guidedLoopTimed fuel script (duration_min * 60) 0 0).map
    (fun r => Effect.bell :: r.1)

/-- Effects of guided_session after its loop breaks: end bell, completion
message, the single log_session append, and the blocking input()
(src/main.py lines 138-141). -/
def guidedTail (duration_min : ℚ) : List Effect :=
  [Effect.bell,
   Effect.message "Session complete — gently come back when ready.",
   Effect.logRow ("Guided " ++ toString duration_min ++ " min") duration_min "",
   Effect.awaitInput]

/-- Full effect trace of guided_session (src/main.py lines 120-141). -/
def guided_session (fuel : ℕ) (script : List (ℚ × String)) (duration_min : ℚ) :
    Option (List Effect) :=
  (guidedPre fuel script duration_min).map (fun pre => pre ++ guidedTail duration_min)

/-! ### custom_timer (src/main.py lines 143-151) -/

def customPre (fuel : ℕ) (duration_min : ℚ) : Option (List Effect) :=
  (progressBarTimed fuel (duration_min * 60) 0).map (fun r =>
    Effect.message ("Custom silent timer — " ++ toString duration_min ++ " minutes")
      :: Effect.bell :: r.1)

def customTail (duration_min : ℚ) : List Effect :=
  [Effect.bell, Effect.message "Time\x27s up. Well done.",
   Effect.logRow "Custom timer" duration_min "", Effect.awaitInput]

def custom_timer (fuel : ℕ) (duration_min : ℚ) : Option (List Effect) :=
  (customPre fuel duration_min).map (fun pre => pre ++ customTail duration_min)

/-! ### box_breathing (src/main.py lines 153-190)

Parameters are Python ints (ℤ): the menu performs no positivity check.
`for t in range(n, 0, -1)` writes n, n-1, ..., 1, sleeping 1 s per write;
for n ≤ 0 it writes nothing. -/

def countdown (label : String) (n : ℤ) : List Effect :=
  (List.range n.toNat).map (fun k : ℕ => Effect.phaseTick label (n - (k : ℤ)))

def boxCycle (inhale hold exhale : ℤ) : List Effect :=
  countdown "Inhale" inhale ++ countdown "Hold" hold
    ++ countdown "Exhale" exhale ++ countdown "Hold" hold

def boxPre (cycles inhale hold exhale : ℤ) : List Effect :=
  Effect.message "Box Breathing Exercise"
  :: Effect.message ("Cycles: " ++ toString cycles ++ ", Pattern: Inhale "
       ++ toString inhale ++ "s — Hold " ++ toString hold ++ "s — Exhale "
       ++ toString exhale ++ "s — Hold " ++ toString hold ++ "s")
  :: Effect.bell
  :: ((List.range cycles.toNat).map (fun c =>
        Effect.message ("Cycle " ++ toString (c + 1) ++ "/" ++ toString cycles)
          :: boxCycle inhale hold exhale)).flatten

def boxTail (cycles inhale hold exhale : ℤ) : List Effect :=
  [Effect.bell, Effect.message "Box breathing complete. Notice how you feel.",
   Effect.logRow "Box breathing"
     (((cycles * (inhale + hold + exhale + hold) : ℤ) : ℚ) / 60) "",
   Effect.awaitInput]

def box_breathing (cycles inhale hold exhale : ℤ) : List Effect :=
  boxPre cycles inhale hold exhale ++ boxTail cycles inhale hold exhale

/-! ### body_scan (src/main.py lines 192-222)

The menu passes int(mins) with no positivity check; per_part is the float
total_seconds / len(parts). -/

def parts : List String :=
  ["top of the head — notice sensations there",
   "forehead and eyes — soften the muscles",
   "jaw and mouth — let the jaw relax",
   "neck and shoulders — release weight into the chair",
   "arms, hands, and fingers — soft and heavy",
   "chest and belly — breathe into the chest",
   "lower back and hips — let them sink",
   "thighs and knees — feel support",
   "calves and shins — let go",
   "feet and toes — notice contact with the floor"]

def bodyPre (fuel : ℕ) (duration_min : ℤ) : Option (List Effect) :=
  let total_seconds : ℚ := (duration_min : ℚ) * 60
  let per_part : ℚ := total_seconds / (parts.length : ℚ)
  (progressBarTimed fuel per_part 0).map (fun r =>
    Effect.bell
      :: Effect.message ("Body-scan — " ++ toString duration_min ++ " minutes")
      :: (parts.map (fun p => Effect.message ("Focus: " ++ p) :: r.1)).flatten)

def bodyTail (duration_min : ℤ) : List Effect :=
  [Effect.bell, Effect.message "Body scan complete. Slowly reconnect with the room.",
   Effect.logRow ("Body-scan " ++ toString duration_min ++ " min")
     ((duration_min : ℚ)) "", Effect.awaitInput]

def body_scan (fuel : ℕ) (duration_min : ℤ) : Option (List Effect) :=
  (bodyPre fuel duration_min).map (fun pre => pre ++ bodyTail duration_min)

/-! ### Menu dispatch (src/main.py lines 265-290) -/

/-- Menu choice 4: the duration is validated; mins ≤ 0 raises ValueError,
caught with an error message and no session (src/main.py lines 265-273). -/
def menuCustomChoice (fuel : ℕ) (mins : ℚ) : Option (List Effect) :=
  if mins ≤ 0 then
    some [Effect.message "Invalid duration. Press Enter to continue...",
          Effect.awaitInput]
  else custom_timer fuel mins

/-- Menu choice 5: the parsed box-breathing parameters are passed to
box_breathing with no validation whatsoever (src/main.py lines 274-280). -/
def menuBoxChoice (cycles inhale hold exhale : ℤ) : List Effect :=
  box_breathing cycles inhale hold exhale

/-- Menu choice 6: int(mins) is passed to body_scan with no positivity
check (src/main.py lines 284-290). -/
def menuBodyChoice (fuel : ℕ) (mins : ℤ) : Option (List Effect) :=
  body_scan fuel mins

/-- The top-level KeyboardInterrupt handler (src/main.py lines 301-305): an
interrupt after k atomic effects of a session truncates the trace there and
prints the farewell message. -/
def mainRunInterrupted (trace : List Effect) (k : ℕ) : List Effect :=
  trace.take k ++ [Effect.message "Session interrupted. Take care."]

/-! ### Arithmetic facts about the render computation -/

lemma pyInt_of_nonneg {q : ℚ} (h : 0 ≤ q) : pyInt q = ⌊q⌋ := if_neg (not_lt.mpr h)

lemma filled_eq_floor {e t : ℚ} (h0 : 0 ≤ e) (ht : 0 < t) :
    filled e t = ⌊30 * e / t⌋ := by
  have hnn : 0 ≤ e / t * ((bar_len : ℕ) : ℚ) :=
    mul_nonneg (div_nonneg h0 ht.le) (by positivity)
  rw [filled, pyInt_of_nonneg hnn]
  congr 1
  simp [bar_len]
  ring

lemma filled_nonneg {e t : ℚ} (h0 : 0 ≤ e) (ht : 0 < t) : 0 ≤ filled e t := by
  rw [filled_eq_floor h0 ht]
  exact Int.floor_nonneg.mpr (by positivity)

lemma filled_le_thirty {e t : ℚ} (h0 : 0 ≤ e) (h1 : e ≤ t) (ht : 0 < t) :
    filled e t ≤ 30 := by
  rw [filled_eq_floor h0 ht]
  have hx : 30 * e / t ≤ 30 := by
    rw [div_le_iff ht]; nlinarith
  calc ⌊30 * e / t⌋ ≤ ⌊(30 : ℚ)⌋ := Int.floor_le_floor hx
    _ = 30 := by norm_num

lemma bar_count_hash (e t : ℚ) : (bar e t).count '#' = (filled e t).toNat := by
  simp +decide [bar, pyRepeat, List.count_cons, List.count_append, List.count_replicate]

lemma bar_count_dash (e t : ℚ) :
    (bar e t).count '-' = ((bar_len : ℤ) - filled e t).toNat := by
  simp +decide [bar, pyRepeat, List.count_cons, List.count_append, List.count_replicate]

/-- Claim C5: for every elapsed in [0, total] with total > 0, the rendered bar
has exactly floor(30 * elapsed / total) filled slots out of 30, and the
filled count is monotonically non-decreasing in elapsed. -/
theorem c5_progress_bar_fill (elapsed total : ℚ)
    (h0 : 0 ≤ elapsed) (h1 : elapsed ≤ total) (ht : 0 < total) :
    (((bar elapsed total).count '#' : ℤ) = ⌊30 * elapsed / total⌋)
    ∧ (bar elapsed total).count '#' + (bar elapsed total).count '-' = 30
    ∧ ∀ e2, elapsed ≤ e2 → e2 ≤ total →
        (bar elapsed total).count '#' ≤ (bar e2 total).count '#' := by
  have hf := filled_eq_floor h0 ht
  have hnn := filled_nonneg h0 ht
  have hle := filled_le_thirty h0 h1 ht
  refine ⟨?_, ?_, ?_⟩
  · rw [bar_count_hash, Int.toNat_of_nonneg hnn, hf]
  · rw [bar_count_hash, bar_count_dash]
    have hb : (bar_len : ℤ) = 30 := by norm_num [bar_len]
    omega
  · intro e2 h2 h3
    rw [bar_count_hash, bar_count_hash]
    apply Int.toNat_le_toNat
    rw [hf, filled_eq_floor (le_trans h0 h2) ht]
    exact Int.floor_le_floor ((div_le_div_right ht).mpr (by linarith))

/-- Witness for C5 at elapsed 30 of total 90: ten slots filled. -/
theorem c5_witness :
    ((0:ℚ) ≤ 30) ∧ ((30:ℚ) ≤ 90) ∧ ((0:ℚ) < 90)
    ∧ ((bar 30 90).count '#' : ℤ) = 10
    ∧ (bar 30 90).count '#' + (bar 30 90).count '-' = 30
    ∧ (bar 30 90).count '#' ≤ (bar 60 90).count '#' := by
  have h := c5_progress_bar_fill 30 90 (by norm_num) (by norm_num) (by norm_num)
  have h4 : ((bar 30 90).count '#' : ℤ) = 10 := by
    rw [h.1, show (30:ℚ) * 30 / 90 = ((10:ℤ) : ℚ) by norm_num, Int.floor_intCast]
  exact ⟨by norm_num, by norm_num, by norm_num, h4, h.2.1,
    h.2.2 60 (by norm_num) (by norm_num)⟩

/-- Claim C6: the rendered countdown is total - elapsed formatted as MM:SS by
truncation toward zero (mins is the floor of remaining/60, mins and secs are
nonnegative, secs < 60, and 60 * mins + secs is the truncated remaining). -/
theorem c6_progress_bar_countdown (elapsed total : ℚ)
    (h0 : 0 ≤ elapsed) (h1 : elapsed ≤ total) :
    mins_left elapsed total = ⌊(total - elapsed) / 60⌋
    ∧ mins_left elapsed total * 60 + secs_left elapsed total = ⌊total - elapsed⌋
    ∧ 0 ≤ mins_left elapsed total ∧ 0 ≤ secs_left elapsed total
    ∧ secs_left elapsed total < 60 := by
  have hrem : (0:ℚ) ≤ total - elapsed := sub_nonneg.mpr h1
  have hm0 : (0:ℤ) ≤ ⌊(total - elapsed) / 60⌋ :=
    Int.floor_nonneg.mpr (by positivity)
  have hmins : mins_left elapsed total = ⌊(total - elapsed) / 60⌋ := by
    rw [mins_left, pyFloorDiv, pyInt_of_nonneg (by exact_mod_cast hm0), Int.floor_intCast]
  have hlow : ((⌊(total - elapsed) / 60⌋ : ℤ) : ℚ) * 60 ≤ total - elapsed :=
    (le_div_iff (by norm_num)).mp (Int.floor_le _)
  have hhigh : total - elapsed < (((⌊(total - elapsed) / 60⌋ : ℤ) : ℚ) + 1) * 60 :=
    (div_lt_iff (by norm_num)).mp (Int.lt_floor_add_one _)
  have hsecs : secs_left elapsed total
      = ⌊total - elapsed⌋ - 60 * ⌊(total - elapsed) / 60⌋ := by
    rw [secs_left, pyMod, pyInt_of_nonneg (by linarith)]
    rw [show (total - elapsed) - 60 * ((⌊(total - elapsed) / 60⌋ : ℤ) : ℚ)
          = (total - elapsed) - ((60 * ⌊(total - elapsed) / 60⌋ : ℤ) : ℚ) by push_cast; ring]
    rw [Int.floor_sub_int]
  have hfl : 60 * ⌊(total - elapsed) / 60⌋ ≤ ⌊total - elapsed⌋ :=
    Int.le_floor.mpr (by push_cast; linarith)
  have hfh : ⌊total - elapsed⌋ < 60 * ⌊(total - elapsed) / 60⌋ + 60 :=
    Int.floor_lt.mpr (by push_cast; linarith)
  refine ⟨hmins, ?_, ?_, ?_, ?_⟩
  · rw [hmins, hsecs]; ring
  · rw [hmins]; exact hm0
  · rw [hsecs]; omega
  · rw [hsecs]; omega

/-- Witness for C6 at elapsed 30 of total 90: 01:00 remaining. -/
theorem c6_witness :
    ((0:ℚ) ≤ 30) ∧ ((30:ℚ) ≤ 90)
    ∧ mins_left 30 90 = 1 ∧ secs_left 30 90 = 0
    ∧ mins_left 30 90 * 60 + secs_left 30 90 = ⌊(90:ℚ) - 30⌋ := by
  have h := c6_progress_bar_countdown 30 90 (by norm_num) (by norm_num)
  have hm : mins_left 30 90 = 1 := by
    rw [h.1, show ((90:ℚ) - 30) / 60 = ((1:ℤ) : ℚ) by norm_num, Int.floor_intCast]
  have hfl : ⌊(90:ℚ) - 30⌋ = 60 := by
    rw [show ((90:ℚ) - 30) = ((60:ℤ) : ℚ) by norm_num, Int.floor_intCast]
  have hsum := h.2.1
  rw [hm, hfl] at hsum
  exact ⟨by norm_num, by norm_num, hm, by omega, h.2.1⟩

/-- Claim C9: when total_seconds ≤ 0 and the first clock reading is
nonnegative, progress_bar breaks on its very first iteration: it renders no
bar line (so the division elapsed / total_seconds in the loop body is never
reached). -/
theorem c9_progress_bar_nonpositive_total (total e : ℚ) (rest : List ℚ)
    (h1 : total ≤ 0) (h2 : 0 ≤ e) :
    progressBarFrames total (e :: rest) = []
    ∧ progressBarIters total (e :: rest) = 1 := by
  have h : total ≤ e := le_trans h1 h2
  exact ⟨by simp [progressBarFrames, h], by simp [progressBarIters, h]⟩

/-- Witness for C9: a zero-length bar request renders nothing and stops at
the first iteration. -/
theorem c9_witness :
    ((0:ℚ) ≤ 0) ∧ progressBarFrames 0 [0] = [] ∧ progressBarIters 0 [0] = 1 := by
  have h := c9_progress_bar_nonpositive_total 0 0 [] (le_refl 0) (le_refl 0)
  exact ⟨le_refl 0, h.1, h.2⟩

/-! ### Facts about the cue-advance cursor -/

lemma next_due_go_eq (e : ℚ) : ∀ (l : List (ℚ × String)) (i : ℕ),
    next_due_go e l i
      = ((l.takeWhile (fun c => decide (c.1 ≤ e))).map Prod.snd,
         i + (l.takeWhile (fun c => decide (c.1 ≤ e))).length) := by
  intro l
  induction l with
  | nil => intro i; simp [next_due_go]
  | cons c rest ih =>
    intro i
    by_cases h : c.1 ≤ e
    · simp only [next_due_go, List.takeWhile_cons, decide_eq_true_eq, h, if_true, ih,
        List.map_cons, List.length_cons]
      exact Prod.ext_iff.mpr ⟨rfl, by omega⟩
    · simp [next_due_go, List.takeWhile_cons, h]

lemma next_due_eq (script : List (ℚ × String)) (i : ℕ) (e : ℚ) :
    next_due script i e
      = (((script.drop i).takeWhile (fun c => decide (c.1 ≤ e))).map Prod.snd,
         i + ((script.drop i).takeWhile (fun c => decide (c.1 ≤ e))).length) :=
  next_due_go_eq e (script.drop i) i

lemma next_due_cursor_ge (script : List (ℚ × String)) (i : ℕ) (e : ℚ) :
    i ≤ (next_due script i e).2 := by
  rw [next_due_eq]; exact Nat.le_add_right _ _

lemma takeWhile_length_le {α : Type} (p : α → Bool) :
    ∀ l : List α, (l.takeWhile p).length ≤ l.length := by
  intro l
  induction l with
  | nil => simp
  | cons a t ih =>
    by_cases h : p a
    · simpa [List.takeWhile_cons_of_pos h] using ih
    · simp [List.takeWhile_cons_of_neg h]

lemma next_due_cursor_le (script : List (ℚ × String)) (i : ℕ) (e : ℚ)
    (h : i ≤ script.length) : (next_due script i e).2 ≤ script.length := by
  have h1 := takeWhile_length_le (fun c : ℚ × String => decide (c.1 ≤ e)) (script.drop i)
  rw [List.length_drop] at h1
  rw [next_due_eq]
  dsimp only
  omega

lemma takeWhile_eq_take_length {α : Type} (p : α → Bool) :
    ∀ l : List α, l.takeWhile p = l.take (l.takeWhile p).length := by
  intro l
  induction l with
  | nil => simp
  | cons a t ih =>
    by_cases h : p a
    · simp [List.takeWhile_cons_of_pos h, List.take_succ_cons, ← ih]
    · simp [List.takeWhile_cons_of_neg h]

lemma takeWhile_drop_length {α : Type} (p : α → Bool) :
    ∀ l : List α, (l.drop (l.takeWhile p).length).takeWhile p = [] := by
  intro l
  induction l with
  | nil => simp
  | cons a t ih =>
    by_cases h : p a
    · simpa [List.takeWhile_cons_of_pos h] using ih
    · simp [List.takeWhile_cons_of_neg h, h]

lemma takeWhile_get_pred {α : Type} (p : α → Bool) :
    ∀ (l : List α) (k : ℕ) (h1 : k < l.length),
      k < (l.takeWhile p).length → p (l.get ⟨k, h1⟩) = true := by
  intro l
  induction l with
  | nil => intro k h1; simp at h1
  | cons a t ih =>
    intro k h1 h2
    by_cases h : p a
    · cases k with
      | zero => simpa using h
      | succ k2 =>
        rw [List.takeWhile_cons_of_pos h, List.length_cons] at h2
        rw [List.get_cons_succ]
        exact ih k2 (by simpa using h1) (by omega)
    · rw [List.takeWhile_cons_of_neg h] at h2; simp at h2

lemma takeWhile_eq_self_of_all {α : Type} (p : α → Bool) :
    ∀ l : List α, (∀ a ∈ l, p a = true) → l.takeWhile p = l := by
  intro l
  induction l with
  | nil => intro; rfl
  | cons a t ih =>
    intro h
    rw [List.takeWhile_cons_of_pos (h a (List.mem_cons_self a t)),
      ih (fun x hx => h x (List.mem_cons_of_mem a hx))]

lemma map_take_append_takeWhile (s : List (ℚ × String)) (i : ℕ) (p : ℚ × String → Bool) :
    (s.take i).map Prod.snd ++ ((s.drop i).takeWhile p).map Prod.snd
      = (s.take (i + ((s.drop i).takeWhile p).length)).map Prod.snd := by
  rw [List.take_add, List.map_append]
  congr 2
  exact takeWhile_eq_take_length p _

lemma runCues_cursor_ge (script : List (ℚ × String)) :
    ∀ (samples : List ℚ) (i : ℕ), i ≤ (runCues script i samples).2 := by
  intro samples
  induction samples with
  | nil => intro i; simp [runCues]
  | cons e es ih =>
    intro i
    simp only [runCues]
    exact le_trans (next_due_cursor_ge script i e) (ih _)

lemma runCues_cursor_le (script : List (ℚ × String)) :
    ∀ (samples : List ℚ) (i : ℕ), i ≤ script.length →
      (runCues script i samples).2 ≤ script.length := by
  intro samples
  induction samples with
  | nil => intro i h; simpa [runCues] using h
  | cons e es ih =>
    intro i h
    simp only [runCues]
    exact ih _ (next_due_cursor_le script i e h)

lemma runCues_prefix_map (script : List (ℚ × String)) :
    ∀ (samples : List ℚ) (i : ℕ),
      (script.take i).map Prod.snd ++ (runCues script i samples).1
        = (script.take (runCues script i samples).2).map Prod.snd := by
  intro samples
  induction samples with
  | nil => intro i; simp [runCues]
  | cons e es ih =>
    intro i
    simp only [runCues]
    rw [← List.append_assoc]
    have hstep : (script.take i).map Prod.snd ++ (next_due script i e).1
        = (script.take (next_due script i e).2).map Prod.snd := by
      rw [next_due_eq]
      exact map_take_append_takeWhile script i _
    rw [hstep]
    exact ih _

lemma runCues_append (script : List (ℚ × String)) :
    ∀ (as bs : List ℚ) (i : ℕ),
      runCues script i (as ++ bs)
        = ((runCues script i as).1 ++ (runCues script (runCues script i as).2 bs).1,
           (runCues script (runCues script i as).2 bs).2) := by
  intro as
  induction as with
  | nil => intro bs i; simp [runCues]
  | cons e es ih =>
    intro bs i
    rw [List.cons_append]
    simp only [runCues]
    rw [ih]
    simp [List.append_assoc]

/-- Claim C4: querying the cue-advance again at the same elapsed value, from
the cursor the first call returned, emits nothing and leaves the cursor
unchanged (no double-fire). -/
theorem c4_next_due_idempotent (script : List (ℚ × String)) (i : ℕ) (elapsed : ℚ) :
    next_due script (next_due script i elapsed).2 elapsed
      = ([], (next_due script i elapsed).2) := by
  rw [next_due_eq script i elapsed, next_due_eq]
  rw [← List.drop_drop, takeWhile_drop_length]
  simp

lemma next_due_sound (script : List (ℚ × String)) (i j : ℕ) (e : ℚ)
    (hj : j < script.length) (h1 : i ≤ j) (h2 : j < (next_due script i e).2) :
    (script.get ⟨j, hj⟩).1 ≤ e := by
  rw [next_due_eq] at h2
  dsimp only at h2
  have hlt : j - i < ((script.drop i).takeWhile (fun c => decide (c.1 ≤ e))).length := by
    omega
  have hlen : j - i < (script.drop i).length := by
    rw [List.length_drop]; omega
  have hp := takeWhile_get_pred (fun c : ℚ × String => decide (c.1 ≤ e))
    (script.drop i) (j - i) hlen hlt
  have hg : (script.drop i).get ⟨j - i, hlen⟩ = script.get ⟨j, hj⟩ := by
    simp only [List.get_eq_getElem, List.getElem_drop,
      show i + (j - i) = j from by omega]
  rw [hg] at hp
  simpa using hp

lemma runCues_cursor_full (script : List (ℚ × String)) (i : ℕ) (M : ℚ)
    (hi : i ≤ script.length) (hcov : ∀ c ∈ script, c.1 ≤ M) :
    (next_due script i M).2 = script.length := by
  rw [next_due_eq]
  dsimp only
  have hall : ∀ c ∈ script.drop i, (fun c : ℚ × String => decide (c.1 ≤ M)) c = true := by
    intro c hc
    simpa using hcov c (List.mem_of_mem_drop hc)
  rw [takeWhile_eq_self_of_all _ _ hall, List.length_drop]
  omega

/-- Claim C3 counterexample: the cue script [(5, B)] queried at the
monotonically increasing elapsed values 0 then 1 emits nothing at all, so the
cue B is not emitted exactly once over the sequence. -/
theorem c3_counterexample :
    (runCues [((5:ℚ), "B")] 0 [0, 1]).1 = []
    ∧ (runCues [((5:ℚ), "B")] 0 [0, 1]).1.count "B" = 0 := by
  constructor <;> decide

/-- Claim C3 (amended): over any monotone elapsed sequence the cue-advance
emits a take-prefix of the script's texts in script order (hence each cue at
most once), keeps the cursor within bounds, never emits a cue at an elapsed
value below its offset, and emits every cue exactly once provided the
sequence ends with a value that is at least every offset. -/
theorem c3_next_due_run (script : List (ℚ × String)) (samples : List ℚ)
    (hs : List.Sorted (· ≤ ·) (script.map Prod.fst))
    (hm : List.Sorted (· ≤ ·) samples) :
    (runCues script 0 samples).1
        = (script.take (runCues script 0 samples).2).map Prod.snd
    ∧ (runCues script 0 samples).2 ≤ script.length
    ∧ (∀ (i : ℕ) (e : ℚ) (j : ℕ) (hj : j < script.length),
        i ≤ j → j < (next_due script i e).2 → (script.get ⟨j, hj⟩).1 ≤ e)
    ∧ (∀ (init : List ℚ) (M : ℚ), samples = init ++ [M] →
        (∀ c ∈ script, c.1 ≤ M) →
        (runCues script 0 samples).1 = script.map Prod.snd) := by
  refine ⟨?_, runCues_cursor_le script samples 0 (Nat.zero_le _), ?_, ?_⟩
  · have h := runCues_prefix_map script samples 0
    simpa using h
  · intro i e j hj h1 h2
    exact next_due_sound script i j e hj h1 h2
  · intro init M hsamp hcov
    have hfull : (runCues script 0 samples).2 = script.length := by
      subst hsamp
      rw [runCues_append]
      simp only [runCues]
      exact runCues_cursor_full script _ M
        (runCues_cursor_le script init 0 (Nat.zero_le _)) hcov
    have h := runCues_prefix_map script samples 0
    simp only [List.take_zero, List.map_nil, List.nil_append] at h
    rw [h, hfull, List.take_length]

/-- Witness for C3 on the script [(0, A), (5, B)] with elapsed values 0, 6:
both hypotheses hold and both cues fire, in order. -/
theorem c3_witness :
    List.Sorted (· ≤ ·) ([((0:ℚ), "A"), (5, "B")].map Prod.fst)
    ∧ List.Sorted (· ≤ ·) [(0:ℚ), 6]
    ∧ (runCues [((0:ℚ), "A"), (5, "B")] 0 [0, 6]).1 = ["A", "B"] := by
  have hs : List.Sorted (· ≤ ·) ([((0:ℚ), "A"), (5, "B")].map Prod.fst) := by
    simp [List.sorted_cons]
  have hm : List.Sorted (· ≤ ·) [(0:ℚ), 6] := by
    simp [List.sorted_cons]
  have h := c3_next_due_run [((0:ℚ), "A"), (5, "B")] [0, 6] hs hm
  have h4 := h.2.2.2 [0] 6 rfl (by decide)
  exact ⟨hs, hm, by simpa using h4⟩

/-- Claim C10: at every tick of a guided session run, the cue cursor stays
within [0, length of the script], never decreases from one tick to the next,
and the cues printed so far are exactly the texts of the first cursor-many
script entries, in script order. -/
theorem c10_guided_cursor_invariant (script : List (ℚ × String))
    (samples : List ℚ) (n : ℕ) :
    (runCues script 0 (samples.take n)).2 ≤ script.length
    ∧ (runCues script 0 (samples.take n)).1
        = (script.take (runCues script 0 (samples.take n)).2).map Prod.snd
    ∧ (runCues script 0 (samples.take n)).2
        ≤ (runCues script 0 (samples.take (n + 1))).2 := by
  refine ⟨runCues_cursor_le script _ 0 (Nat.zero_le _), ?_, ?_⟩
  · have h := runCues_prefix_map script (samples.take n) 0
    simpa using h
  · rw [List.take_succ, runCues_append]
    exact runCues_cursor_ge script _ _

/-! ### Log rows and cue lines in effect traces -/

lemma ld_append (a b : List Effect) :
    loggedDurations (a ++ b) = loggedDurations a ++ loggedDurations b :=
  List.filterMap_append a b logOf

lemma ld_nil_of_all {l : List Effect} (h : ∀ x ∈ l, logOf x = none) :
    loggedDurations l = [] :=
  List.filterMap_eq_nil.mpr h

lemma ld_take (k : ℕ) {l : List Effect} (h : loggedDurations l = []) :
    loggedDurations (l.take k) = [] := by
  have hsub := (List.take_sublist k l).filterMap logOf
  rw [loggedDurations] at h
  rw [h] at hsub
  exact List.sublist_nil.mp hsub

lemma cueTexts_append (a b : List Effect) :
    cueTexts (a ++ b) = cueTexts a ++ cueTexts b :=
  List.filterMap_append a b _

lemma ld_cueLines (l : List String) :
    loggedDurations (l.map Effect.cueLine) = [] := by
  induction l with
  | nil => rfl
  | cons a t ih => simpa [loggedDurations, logOf] using ih

lemma cueTexts_cueLines (l : List String) :
    cueTexts (l.map Effect.cueLine) = l := by
  induction l with
  | nil => rfl
  | cons a t ih => simpa [cueTexts] using ih

/-- Every successful progress_bar run appends no log row, prints no cue line,
and only returns once its own elapsed time has reached the requested total. -/
lemma progressBarTimed_spec : ∀ (fuel : ℕ) (total e : ℚ) (fr : List Effect) (c : ℚ),
    progressBarTimed fuel total e = some (fr, c) →
    loggedDurations fr = [] ∧ cueTexts fr = [] ∧ total ≤ c := by
  intro fuel
  induction fuel with
  | zero => intro total e fr c h; simp [progressBarTimed] at h
  | succ f ih =>
    intro total e fr c h
    simp only [progressBarTimed] at h
    by_cases hle : total ≤ e
    · rw [if_pos hle] at h
      simp only [Option.some.injEq, Prod.mk.injEq] at h
      obtain ⟨h1, h2⟩ := h
      subst h1; subst h2
      exact ⟨rfl, rfl, hle⟩
    · rw [if_neg hle] at h
      cases hpb : progressBarTimed f total (e + 1/2) with
      | none => rw [hpb] at h; simp at h
      | some r =>
        rw [hpb] at h
        obtain ⟨fr2, c2⟩ := r
        simp only [Option.some.injEq, Prod.mk.injEq] at h
        obtain ⟨h1, h2⟩ := h
        have hrec := ih total (e + 1/2) fr2 c2 hpb
        refine ⟨?_, ?_, h2 ▸ hrec.2.2⟩
        · rw [← h1]; simpa [loggedDurations, logOf] using hrec.1
        · rw [← h1]; simpa [cueTexts] using hrec.2.1

/-- The guided_session loop itself never appends a log row. -/
lemma guidedLoopTimed_no_log : ∀ (fuel : ℕ) (script : List (ℚ × String)) (total : ℚ)
    (i : ℕ) (e : ℚ) (r : List Effect × ℚ),
    guidedLoopTimed fuel script total i e = some r → loggedDurations r.1 = [] := by
  intro fuel
  induction fuel with
  | zero => intro script total i e r h; simp [guidedLoopTimed] at h
  | succ f ih =>
    intro script total i e r h
    simp only [guidedLoopTimed] at h
    by_cases hle : total ≤ e
    · rw [if_pos hle] at h
      simp only [Option.some.injEq] at h
      rw [← h]
      rfl
    · rw [if_neg hle] at h
      cases hpb : progressBarTimed f (max 0 (total - e)) 0 with
      | none => rw [hpb] at h; simp at h
      | some pr =>
        obtain ⟨fr, consumed⟩ := pr
        rw [hpb] at h
        dsimp only at h
        cases hgl : guidedLoopTimed f script total (next_due script i e).2 (e + consumed) with
        | none => rw [hgl] at h; simp at h
        | some r2 =>
          obtain ⟨effs, tEnd⟩ := r2
          rw [hgl] at h
          simp only [Option.some.injEq] at h
          rw [← h]
          dsimp only
          rw [ld_append, ld_append, ld_cueLines,
            (progressBarTimed_spec f _ 0 fr consumed hpb).1,
            ih script total _ _ (effs, tEnd) hgl]
          rfl

/-- Claim C1 (code bug evidence): in every completed guided_session run with
positive total duration, the cues printed over the whole run are exactly
those already due at elapsed 0.  The first progress_bar(remaining) call
loops internally until the entire remaining time has elapsed, so the outer
loop's next elapsed reading is already ≥ total and it exits: for the
scenario script [(0, A), (5, B), (5, C), (10, D)] with total 10 s only "A"
is ever printed — "B" and "C" never fire, and "D" (offset = total) could
never fire in any case because the loop breaks before the cue check once
elapsed ≥ total. -/
theorem c1_guided_session_emits_only_first_tick_cues (fuel : ℕ)
    (script : List (ℚ × String)) (total : ℚ) (r : List Effect × ℚ)
    (h0 : 0 < total) (h : guidedLoopTimed fuel script total 0 0 = some r) :
    cueTexts r.1 = (next_due script 0 0).1 := by
  cases fuel with
  | zero => simp [guidedLoopTimed] at h
  | succ f =>
    simp only [guidedLoopTimed] at h
    rw [if_neg (not_le.mpr h0)] at h
    cases hpb : progressBarTimed f (max 0 (total - 0)) 0 with
    | none => rw [hpb] at h; simp at h
    | some pr =>
      obtain ⟨fr, consumed⟩ := pr
      rw [hpb] at h
      dsimp only at h
      have hcons : total ≤ consumed := by
        have hge := (progressBarTimed_spec f (max 0 (total - 0)) 0 fr consumed hpb).2.2
        rw [sub_zero, max_eq_right h0.le] at hge
        exact hge
      cases hgl : guidedLoopTimed f script total (next_due script 0 0).2 (0 + consumed) with
      | none => rw [hgl] at h; simp at h
      | some r2 =>
        obtain ⟨effs, tEnd⟩ := r2
        rw [hgl] at h
        simp only [Option.some.injEq] at h
        have heffs : effs = [] := by
          cases f with
          | zero => simp [guidedLoopTimed] at hgl
          | succ f2 =>
            simp only [guidedLoopTimed] at hgl
            rw [if_pos (by linarith : total ≤ 0 + consumed)] at hgl
            simp only [Option.some.injEq, Prod.mk.injEq] at hgl
            exact hgl.1.symm
        subst heffs
        rw [← h]
        dsimp only
        rw [cueTexts_append, cueTexts_append, cueTexts_cueLines,
          (progressBarTimed_spec f _ 0 fr consumed hpb).2.1]
        simp [cueTexts]

/-- Witness for C1: the one-cue script [(0, A), (1, B)] with total 1 s run to
completion; only "A" is printed even though B's offset 1 equals the total. -/
theorem c1_witness :
    ((0:ℚ) < 1)
    ∧ (guidedLoopTimed 5 [((0:ℚ), "A"), (1, "B")] 1 0 0).isSome = true
    ∧ cueTexts ((guidedLoopTimed 5 [((0:ℚ), "A"), (1, "B")] 1 0 0).getD ([], 0)).1
        = ["A"] := by
  have hIs : (guidedLoopTimed 5 [((0:ℚ), "A"), (1, "B")] 1 0 0).isSome = true := by
    norm_num [guidedLoopTimed, progressBarTimed, next_due, next_due_go]
  refine ⟨by norm_num, hIs, ?_⟩
  have hsome : guidedLoopTimed 5 [((0:ℚ), "A"), (1, "B")] 1 0 0
      = some ((guidedLoopTimed 5 [((0:ℚ), "A"), (1, "B")] 1 0 0).getD ([], 0)) := by
    cases ho : guidedLoopTimed 5 [((0:ℚ), "A"), (1, "B")] 1 0 0 with
    | none => rw [ho] at hIs; simp at hIs
    | some v => rfl
  have happ := c1_guided_session_emits_only_first_tick_cues 5
    [((0:ℚ), "A"), (1, "B")] 1 _ (by norm_num) hsome
  rw [happ]
  decide

/-! ### Box breathing, body scan and menu validation facts -/

lemma ld_countdown (lab : String) (n : ℤ) : loggedDurations (countdown lab n) = [] := by
  apply ld_nil_of_all
  intro x hx
  simp only [countdown, List.mem_map, List.mem_range] at hx
  obtain ⟨k, _, rfl⟩ := hx
  rfl

lemma ld_boxCycle (ihs hds exs : ℤ) : loggedDurations (boxCycle ihs hds exs) = [] := by
  rw [boxCycle, ld_append, ld_append, ld_append]
  simp [ld_countdown]

lemma ld_boxPre (cy ihs hds exs : ℤ) : loggedDurations (boxPre cy ihs hds exs) = [] := by
  apply ld_nil_of_all
  intro x hx
  simp only [boxPre, List.mem_cons, List.mem_flatten, List.mem_map, List.mem_range] at hx
  rcases hx with rfl | rfl | rfl | ⟨l, ⟨c, _, rfl⟩, hxl⟩
  · rfl
  · rfl
  · rfl
  · rcases List.mem_cons.mp hxl with rfl | hxc
    · rfl
    · exact List.filterMap_eq_nil.mp (ld_boxCycle ihs hds exs) x hxc

lemma countP_tick_countdown (lab : String) (n : ℤ) :
    (countdown lab n).countP isPhaseTick = n.toNat := by
  have hall : ∀ x ∈ countdown lab n, isPhaseTick x = true := by
    intro x hx
    simp only [countdown, List.mem_map, List.mem_range] at hx
    obtain ⟨k, _, rfl⟩ := hx
    rfl
  rw [List.countP_eq_length.mpr hall, countdown, List.length_map, List.length_range]

lemma countP_tick_boxCycle (ihs hds exs : ℤ) :
    (boxCycle ihs hds exs).countP isPhaseTick
      = ihs.toNat + hds.toNat + exs.toNat + hds.toNat := by
  rw [boxCycle, List.countP_append, List.countP_append, List.countP_append]
  simp only [countP_tick_countdown]

lemma countP_tick_cycles (cy ihs hds exs : ℤ) : ∀ n : ℕ,
    (((List.range n).map (fun c =>
        Effect.message ("Cycle " ++ toString (c + 1) ++ "/" ++ toString cy)
          :: boxCycle ihs hds exs)).flatten).countP isPhaseTick
      = n * (ihs.toNat + hds.toNat + exs.toNat + hds.toNat) := by
  intro n
  induction n with
  | zero => simp
  | succ m ihm =>
    rw [List.range_succ, List.map_append, List.flatten_append, List.countP_append, ihm]
    simp only [List.map_cons, List.map_nil, List.flatten_cons, List.flatten_nil,
      List.append_nil, List.countP_cons, countP_tick_boxCycle]
    simp [isPhaseTick, Nat.succ_mul]

lemma countP_tick_boxPre (cy ihs hds exs : ℤ) :
    (boxPre cy ihs hds exs).countP isPhaseTick
      = cy.toNat * (ihs.toNat + hds.toNat + exs.toNat + hds.toNat) := by
  rw [boxPre]
  simp only [List.countP_cons, countP_tick_cycles]
  simp [isPhaseTick]

lemma ld_guidedPre (fuel : ℕ) (script : List (ℚ × String)) (d : ℚ) (pre : List Effect)
    (h : guidedPre fuel script d = some pre) : loggedDurations pre = [] := by
  rw [guidedPre, Option.map_eq_some'] at h
  obtain ⟨r, hr, rfl⟩ := h
  have hld := guidedLoopTimed_no_log fuel script (d * 60) 0 0 r hr
  simpa [loggedDurations, logOf] using hld

lemma ld_customPre (fuel : ℕ) (d : ℚ) (pre : List Effect)
    (h : customPre fuel d = some pre) : loggedDurations pre = [] := by
  rw [customPre, Option.map_eq_some'] at h
  obtain ⟨⟨fr, c⟩, hr, rfl⟩ := h
  have hld := (progressBarTimed_spec fuel (d * 60) 0 fr c hr).1
  simpa [loggedDurations, logOf] using hld

lemma ld_bodyPre (fuel : ℕ) (d : ℤ) (pre : List Effect)
    (h : bodyPre fuel d = some pre) : loggedDurations pre = [] := by
  simp only [bodyPre] at h
  rw [Option.map_eq_some'] at h
  obtain ⟨⟨fr, c⟩, hr, rfl⟩ := h
  apply ld_nil_of_all
  intro x hx
  have hfr : ∀ y ∈ fr, logOf y = none :=
    List.filterMap_eq_nil.mp (progressBarTimed_spec fuel _ 0 fr c hr).1
  simp only [List.mem_cons, List.mem_flatten, List.mem_map] at hx
  rcases hx with rfl | rfl | ⟨l, ⟨p, _, rfl⟩, hxl⟩
  · rfl
  · rfl
  · rcases List.mem_cons.mp hxl with rfl | hxf
    · rfl
    · exact hfr x hxf

lemma bodyPre_bell (fuel : ℕ) (d : ℤ) (pre : List Effect)
    (h : bodyPre fuel d = some pre) : Effect.bell ∈ pre := by
  simp only [bodyPre] at h
  rw [Option.map_eq_some'] at h
  obtain ⟨⟨fr, c⟩, hr, rfl⟩ := h
  exact List.mem_cons_self _ _

lemma take_append_all {α : Type} (l1 l2 : List α) (k : ℕ) (h : k ≤ l1.length) :
    (l1 ++ l2).take k = l1.take k := by
  induction l1 generalizing k with
  | nil =>
    simp only [List.length_nil, Nat.le_zero] at h
    simp [h]
  | cons a t ih =>
    cases k with
    | zero => simp
    | succ k2 =>
      simp only [List.cons_append, List.take_succ_cons]
      rw [ih k2 (by simpa using h)]

lemma interrupt_no_log (pre tail : List Effect) (k : ℕ)
    (hld : loggedDurations pre = []) (hk : k ≤ pre.length) :
    loggedDurations (mainRunInterrupted (pre ++ tail) k) = []
    ∧ Effect.message "Session interrupted. Take care."
        ∈ mainRunInterrupted (pre ++ tail) k := by
  constructor
  · rw [mainRunInterrupted, ld_append, take_append_all pre tail k hk, ld_take k hld]
    rfl
  · rw [mainRunInterrupted]
    exact List.mem_append_right _ (List.mem_singleton_self _)

/-- Claim C2 counterexample: choosing box breathing from the menu with
cycles = 0 (a non-positive parameter) is not rejected — the session still
runs, the start bell fires, and a record with duration 0 is logged. -/
theorem c2_counterexample :
    Effect.bell ∈ menuBoxChoice 0 4 4 4
    ∧ loggedDurations (menuBoxChoice 0 4 4 4) = [0] := by
  constructor
  · simp [menuBoxChoice, box_breathing, boxPre]
  · rw [menuBoxChoice, box_breathing, ld_append, ld_boxPre, List.nil_append]
    have htail : loggedDurations (boxTail 0 4 4 4)
        = [(((0 * (4 + 4 + 4 + 4) : ℤ)) : ℚ) / 60] := rfl
    rw [htail]
    norm_num

/-- Claim C2 (amended): only the custom-timer menu path validates its input
(a duration ≤ 0 is rejected before the session starts: no bell, no log row).
The box-breathing and body-scan menu paths perform no positivity check: for
every parameter values — including non-positive ones — the session runs,
emits the start bell, and appends exactly one log record. -/
theorem c2_validation_amended :
    (∀ (fuel : ℕ) (mins : ℚ) (t : List Effect), mins ≤ 0 →
      menuCustomChoice fuel mins = some t →
      Effect.bell ∉ t ∧ loggedDurations t = [])
    ∧ (∀ cy ihs hds exs : ℤ,
      Effect.bell ∈ menuBoxChoice cy ihs hds exs
      ∧ (loggedDurations (menuBoxChoice cy ihs hds exs)).length = 1)
    ∧ (∀ (fuel : ℕ) (mins : ℤ) (t : List Effect),
      menuBodyChoice fuel mins = some t →
      Effect.bell ∈ t ∧ (loggedDurations t).length = 1) := by
  refine ⟨?_, ?_, ?_⟩
  · intro fuel mins t hm ht
    rw [menuCustomChoice, if_pos hm] at ht
    injection ht with ht2
    subst ht2
    exact ⟨by decide, rfl⟩
  · intro cy ihs hds exs
    constructor
    · simp [menuBoxChoice, box_breathing, boxPre]
    · rw [menuBoxChoice, box_breathing, ld_append, ld_boxPre, List.nil_append]
      rfl
  · intro fuel mins t ht
    rw [menuBodyChoice, body_scan, Option.map_eq_some'] at ht
    obtain ⟨pre, hpre, rfl⟩ := ht
    constructor
    · exact List.mem_append_left _ (bodyPre_bell fuel mins pre hpre)
    · rw [ld_append, ld_bodyPre fuel mins pre hpre, List.nil_append]
      rfl

/-- Witness for C2: duration 0 for the custom timer is rejected with no bell
and no log; box breathing and body scan both bell and log exactly one row. -/
theorem c2_witness :
    ((0:ℚ) ≤ 0)
    ∧ menuCustomChoice 1 0
        = some [Effect.message "Invalid duration. Press Enter to continue...",
                Effect.awaitInput]
    ∧ Effect.bell ∉ [Effect.message "Invalid duration. Press Enter to continue...",
        Effect.awaitInput]
    ∧ loggedDurations [Effect.message "Invalid duration. Press Enter to continue...",
        Effect.awaitInput] = []
    ∧ Effect.bell ∈ menuBoxChoice 1 4 4 4
    ∧ (loggedDurations (menuBoxChoice 1 4 4 4)).length = 1
    ∧ (menuBodyChoice 1 0).isSome = true
    ∧ Effect.bell ∈ (menuBodyChoice 1 0).getD []
    ∧ (loggedDurations ((menuBodyChoice 1 0).getD [])).length = 1 := by
  have hcust : menuCustomChoice 1 0
      = some [Effect.message "Invalid duration. Press Enter to continue...",
              Effect.awaitInput] := by
    rw [menuCustomChoice, if_pos (le_refl (0:ℚ))]
  have h1 := c2_validation_amended.1 1 0 _ (le_refl 0) hcust
  have h2 := c2_validation_amended.2.1 1 4 4 4
  have hIs : (menuBodyChoice 1 0).isSome = true := by
    norm_num [menuBodyChoice, body_scan, bodyPre, progressBarTimed, parts]
  have hsome : menuBodyChoice 1 0 = some ((menuBodyChoice 1 0).getD []) := by
    cases ho : menuBodyChoice 1 0 with
    | none => rw [ho] at hIs; simp at hIs
    | some v => rfl
  have h3 := c2_validation_amended.2.2 1 0 _ hsome
  exact ⟨le_refl 0, hcust, h1.1, h1.2, h2.1, h2.2, hIs, h3.1, h3.2⟩

/-- Claim C7: a box-breathing run with positive parameters counts down
cycles * (inhale + 2 * hold + exhale) seconds (one phase-tick write per
1 s sleep) and logs exactly that value divided by 60 as duration_min. -/
theorem c7_box_breathing_total (cy ihs hds exs : ℤ)
    (h1 : 0 < cy) (h2 : 0 < ihs) (h3 : 0 < hds) (h4 : 0 < exs) :
    (box_breathing cy ihs hds exs).countP isPhaseTick
        = (cy * (ihs + 2 * hds + exs)).toNat
    ∧ loggedDurations (box_breathing cy ihs hds exs)
        = [((cy * (ihs + 2 * hds + exs) : ℤ) : ℚ) / 60] := by
  have hA : ((cy.toNat * (ihs.toNat + hds.toNat + exs.toNat + hds.toNat) : ℕ) : ℤ)
      = cy * (ihs + 2 * hds + exs) := by
    push_cast [Int.toNat_of_nonneg h1.le, Int.toNat_of_nonneg h2.le,
      Int.toNat_of_nonneg h3.le, Int.toNat_of_nonneg h4.le]
    ring
  constructor
  · rw [box_breathing, List.countP_append, countP_tick_boxPre]
    have htail : (boxTail cy ihs hds exs).countP isPhaseTick = 0 := rfl
    rw [htail, Nat.add_zero, ← hA, Int.toNat_natCast]
  · rw [box_breathing, ld_append, ld_boxPre, List.nil_append]
    have htail : loggedDurations (boxTail cy ihs hds exs)
        = [((cy * (ihs + hds + exs + hds) : ℤ) : ℚ) / 60] := rfl
    rw [htail]
    have hval : ((cy * (ihs + hds + exs + hds) : ℤ) : ℚ)
        = ((cy * (ihs + 2 * hds + exs) : ℤ) : ℚ) := by
      push_cast
      ring
    rw [hval]

/-- Witness for C7 at cycles 2, inhale = hold = exhale = 4: 32 counted
seconds and a logged duration of 32/60 minutes. -/
theorem c7_witness :
    ((0:ℤ) < 2) ∧ ((0:ℤ) < 4)
    ∧ (box_breathing 2 4 4 4).countP isPhaseTick = 32
    ∧ loggedDurations (box_breathing 2 4 4 4) = [(32 : ℚ) / 60] := by
  have h := c7_box_breathing_total 2 4 4 4 (by decide) (by decide) (by decide) (by decide)
  refine ⟨by decide, by decide, ?_, ?_⟩
  · rw [h.1]
    decide
  · rw [h.2]
    norm_num

/-- Claim C8: for each of the four session kinds, an interrupt that truncates
the run anywhere up to the end of its main loop reaches the top-level
handler (which prints the farewell message) with zero log rows appended:
every log_session call site lies strictly after the loop. -/
theorem c8_interrupted_session_logs_nothing :
    (∀ (fuel : ℕ) (script : List (ℚ × String)) (d : ℚ) (pre : List Effect) (k : ℕ),
      guidedPre fuel script d = some pre → k ≤ pre.length →
      loggedDurations (mainRunInterrupted (pre ++ guidedTail d) k) = []
      ∧ Effect.message "Session interrupted. Take care."
          ∈ mainRunInterrupted (pre ++ guidedTail d) k)
    ∧ (∀ (fuel : ℕ) (d : ℚ) (pre : List Effect) (k : ℕ),
      customPre fuel d = some pre → k ≤ pre.length →
      loggedDurations (mainRunInterrupted (pre ++ customTail d) k) = []
      ∧ Effect.message "Session interrupted. Take care."
          ∈ mainRunInterrupted (pre ++ customTail d) k)
    ∧ (∀ (cy ihs hds exs : ℤ) (k : ℕ), k ≤ (boxPre cy ihs hds exs).length →
      loggedDurations (mainRunInterrupted (box_breathing cy ihs hds exs) k) = []
      ∧ Effect.message "Session interrupted. Take care."
          ∈ mainRunInterrupted (box_breathing cy ihs hds exs) k)
    ∧ (∀ (fuel : ℕ) (d : ℤ) (pre : List Effect) (k : ℕ),
      bodyPre fuel d = some pre → k ≤ pre.length →
      loggedDurations (mainRunInterrupted (pre ++ bodyTail d) k) = []
      ∧ Effect.message "Session interrupted. Take care."
          ∈ mainRunInterrupted (pre ++ bodyTail d) k) := by
  refine ⟨?_, ?_, ?_, ?_⟩
  · intro fuel script d pre k hpre hk
    exact interrupt_no_log pre (guidedTail d) k (ld_guidedPre fuel script d pre hpre) hk
  · intro fuel d pre k hpre hk
    exact interrupt_no_log pre (customTail d) k (ld_customPre fuel d pre hpre) hk
  · intro cy ihs hds exs k hk
    rw [box_breathing]
    exact interrupt_no_log _ _ k (ld_boxPre cy ihs hds exs) hk
  · intro fuel d pre k hpre hk
    exact interrupt_no_log pre (bodyTail d) k (ld_bodyPre fuel d pre hpre) hk

/-- Witness for C8: a zero-length guided session interrupted right after its
start bell logs nothing and shows the farewell message. -/
theorem c8_witness :
    guidedPre 1 [] 0 = some [Effect.bell]
    ∧ 1 ≤ [Effect.bell].length
    ∧ loggedDurations (mainRunInterrupted ([Effect.bell] ++ guidedTail 0) 1) = []
    ∧ Effect.message "Session interrupted. Take care."
        ∈ mainRunInterrupted ([Effect.bell] ++ guidedTail 0) 1 := by
  have hpre : guidedPre 1 [] 0 = some [Effect.bell] := by
    norm_num [guidedPre, guidedLoopTimed]
  have h := c8_interrupted_session_logs_nothing.1 1 [] 0 [Effect.bell] 1 hpre
    (by decide)
  exact ⟨hpre, by decide, h.1, h.2⟩
